import Mathlib

/-!
Shallow embedding of `src/include/Memory.hxx` (namespace `Seweex`), a
fixed-page memory allocator: per-page block directories
(`Detail::PageBlockInfo`, `Memory::Page`) and the load-keyed page pool
(`Memory::Pool`).

Modelling conventions:
* `size_t` / `ptrdiff_t` are idealized as `Nat` / `Int`; the one place where
  64-bit wraparound is observable on its own (the `sizeof(_Ty) * count`
  product inside `size_in_blocks`) carries an explicit `% 2^64`.
* `float` quantities (`myLoad`, the pool keys and statistics) are modelled
  exactly by the fraction type `Frac` below; the spec's load claims are
  stated "within floating-point tolerance", which the exact model realizes
  as value equality (`Frac.eqv`).
* Pointers into a page's byte buffer are represented by their byte offset
  from the buffer start (the buffer base is `alignas(_Alignment)`, so
  `dataBegin % _Alignment` equals that offset modulo the alignment).  The
  typed pointer `try_occupy` returns is represented by the block index of
  the occupied run (its byte offset is `index * alignment`).
* Iterators into the directory `myInfo` are block indices; the
  end iterator is the index `myInfo.length`.  `PageBlockInfo*` links
  (`myPrev`) are `Option Nat` block indices, `none` standing for `nullptr`.
* Reads or writes the C++ would perform past `myInfo.end()` are undefined
  behaviour in the source; the model guards them (out-of-range reads yield
  the all-zero header, out-of-range writes are dropped).  No claim below is
  decided at such a point.
-/

namespace Seweex

/-- The C++ `float` gauges (`myLoad`, the pool keys, the running request
statistics), modelled as exact fractions.  Arithmetic keeps the numerator
and denominator unnormalized (plain `Int` cross arithmetic, so everything
kernel-reduces); two gauges denote the same value when cross-multiplication
agrees (`Frac.eqv`) and compare by cross-multiplication (`Frac.lt`,
`Frac.le`, faithful to the float order whenever the denominators are
positive, which holds for every gauge the modelled code constructs). -/
structure Frac where
  num : Int
  den : Int
deriving DecidableEq

instance : Inhabited Frac := ⟨⟨0, 1⟩⟩

/-- Embed a machine integer into the gauge domain
(`static_cast<float>(n)`). -/
def Frac.ofNat (n : Nat) : Frac := ⟨n, 1⟩

/-- Exact float addition. -/
def Frac.add (a b : Frac) : Frac := ⟨a.num * b.den + b.num * a.den, a.den * b.den⟩

/-- Exact float subtraction. -/
def Frac.sub (a b : Frac) : Frac := ⟨a.num * b.den - b.num * a.den, a.den * b.den⟩

/-- Exact float multiplication. -/
def Frac.mul (a b : Frac) : Frac := ⟨a.num * b.num, a.den * b.den⟩

/-- Exact float division. -/
def Frac.div (a b : Frac) : Frac := ⟨a.num * b.den, a.den * b.num⟩

/-- Two gauges denote the same real value. -/
def Frac.eqv (a b : Frac) : Prop := a.num * b.den = b.num * a.den

/-- Strict value order (for positive denominators). -/
def Frac.lt (a b : Frac) : Prop := a.num * b.den < b.num * a.den

/-- Value order (for positive denominators). -/
def Frac.le (a b : Frac) : Prop := a.num * b.den ≤ b.num * a.den

instance (a b : Frac) : Decidable (a.eqv b) :=
  inferInstanceAs (Decidable (a.num * b.den = b.num * a.den))

instance (a b : Frac) : Decidable (a.lt b) :=
  inferInstanceAs (Decidable (a.num * b.den < b.num * a.den))

instance (a b : Frac) : Decidable (a.le b) :=
  inferInstanceAs (Decidable (a.num * b.den ≤ b.num * a.den))

/-- `Detail::PageBlockInfo`: one directory cell.  `myPrev` is the backward
link to the head of the preceding run (`none` = `nullptr`), `mySize` the
signed-magnitude size: positive = free, negative = occupied, zero = not a
head. -/
structure PageBlockInfo where
  myPrev : Option Nat
  mySize : Int
deriving DecidableEq

instance : Inhabited PageBlockInfo := ⟨⟨none, 0⟩⟩

/-- `PageBlockInfo::make_head(free, size)`:
`mySize = free ? (ptrdiff_t)size : -(ptrdiff_t)size` (the link is untouched). -/
def PageBlockInfo.make_head (b : PageBlockInfo) (free : Bool) (size : Nat) :
    PageBlockInfo :=
  { b with mySize := if free then (size : Int) else -(size : Int) }

/-- `PageBlockInfo::remove_head()`: `mySize = 0; myPrev = nullptr`. -/
def PageBlockInfo.remove_head (_b : PageBlockInfo) : PageBlockInfo :=
  ⟨none, 0⟩

/-- `PageBlockInfo::prev(info)` (setter). -/
def PageBlockInfo.set_prev (b : PageBlockInfo) (p : Option Nat) : PageBlockInfo :=
  { b with myPrev := p }

/-- `PageBlockInfo::size()`: the magnitude of `mySize`. -/
def PageBlockInfo.size (b : PageBlockInfo) : Nat :=
  b.mySize.natAbs

/-- `PageBlockInfo::is_free()`: `mySize > 0`. -/
def PageBlockInfo.is_free (b : PageBlockInfo) : Bool :=
  decide (0 < b.mySize)

/-- `Page::size_in_blocks<_Ty>(count)`:
`(sizeof(_Ty) * count + _Alignment - 1) & ~(_Alignment - 1)` on `size_t`.
The template constrains `_Alignment` to a power of two, for which the mask
clears the value to the next lower multiple of the alignment, i.e.
`x & ~(a-1) = x - x % a`; the multiplication and the increment are 64-bit.
NOTE: despite its name the source expression never divides by the
alignment, so the value is a rounded-up *byte* count, not a block count. -/
def size_in_blocks (sz align count : Nat) : Nat :=
  let bytes := (sz * count % 2 ^ 64 + align - 1) % 2 ^ 64
  bytes - bytes % align

/-- `Page::Hint`: `myIter` is the captured directory position, `myEnd` the
captured end iterator (`none` = the default-constructed `std::monostate`
alternative). -/
structure Hint where
  myIter : Nat := 0
  myEnd : Option Nat := none
deriving DecidableEq

instance : Inhabited Hint := ⟨{}⟩

/-- `Hint::is_valid()`: the variant holds an iterator and `myIter` differs
from it. -/
def Hint.is_valid (h : Hint) : Bool :=
  match h.myEnd with
  | some e => decide (h.myIter ≠ e)
  | none => false

/-- `Hint::is_valid(trueEnd)`: the stored end matches the queried
directory's end and `myIter` differs from it. -/
def Hint.is_valid_against (h : Hint) (trueEnd : Nat) : Bool :=
  match h.myEnd with
  | some e => decide (e = trueEnd) && decide (h.myIter ≠ e)
  | none => false

/-- `Memory::Page<_Size, _Alignment>` state: the directory `myInfo`
(`_Size / _Alignment` cells) and the running load gauge `myLoad`.
`alignment` is the `_Alignment` template argument; the byte capacity
`_Size` is `info.length * alignment`.  The raw byte buffer `myData` is
never read by the directory logic and is omitted. -/
structure Page where
  alignment : Nat
  info : List PageBlockInfo
  myLoad : Frac
deriving DecidableEq

instance : Inhabited Page := ⟨⟨1, [], default⟩⟩

/-- Read directory cell `i` (the all-zero header beyond the end, where the
source would have undefined behaviour). -/
def getInfo (info : List PageBlockInfo) (i : Nat) : PageBlockInfo :=
  info.getD i default

/-- Write directory cell `i` (dropped beyond the end, where the source
would have undefined behaviour). -/
def setInfo (info : List PageBlockInfo) (i : Nat) (b : PageBlockInfo) :
    List PageBlockInfo :=
  info.set i b

/-- `Page::Page()`: zeroed directory except `myInfo.front().make_head(true,
blocks_count)`; `myLoad = 0`. -/
def freshPage (align n : Nat) : Page :=
  { alignment := align
    info := (List.replicate n default).set 0
      (PageBlockInfo.make_head default true n)
    myLoad := ⟨0, 1⟩ }

/-- `Page::from_hint(hint)`: `hint.is_valid(myInfo.cend())` yields the
hinted position, otherwise `myInfo.end()` (= `info.length`). -/
def Page.from_hint (p : Page) (hint : Hint) : Nat :=
  if hint.is_valid_against p.info.length then hint.myIter else p.info.length

/-- The loop of `Page::fit`: scan run heads from `iter`, advancing by each
head's block count, until a free head of at least `blocks` is found.  The
C++ `while (iter != myInfo.end())` loop is fuel-bounded here: exhausted
fuel corresponds to the source not terminating (which needs a zero-size
head) or overrunning the directory (undefined behaviour); both return the
invalid end hint in the model. -/
def fitLoop (info : List PageBlockInfo) (blocks : Nat) : Nat → Nat → Hint
  | _, 0 => ⟨info.length, some info.length⟩
  | iter, fuel + 1 =>
    if iter < info.length then
      if (getInfo info iter).is_free = true ∧ blocks ≤ (getInfo info iter).size then
        ⟨iter, some info.length⟩
      else
        fitLoop info blocks (iter + (getInfo info iter).size) fuel
    else ⟨info.length, some info.length⟩

/-- `Page::fit<_Ty>(count)` for a type of size `sz` and alignment `al`:
if `alignof(_Ty) ≤ _Alignment`, first-fit scan for
`size_in_blocks<_Ty>(count)`; otherwise (or when nothing fits) the invalid
`{ myInfo.end() }` hint. -/
def Page.fit (p : Page) (sz al count : Nat) : Hint :=
  if al ≤ p.alignment then
    fitLoop p.info (size_in_blocks sz p.alignment count) 0 (p.info.length + 1)
  else ⟨p.info.length, some p.info.length⟩

/-- `Page::contains<_Ty>(data, count)` for a pointer at byte offset `off`
from the buffer start: bounds check, alignment check, then the cell at
`off / _Alignment` must be an occupied head of exactly
`size_in_blocks<_Ty>(count)`.  When `off / alignment` lands exactly on the
end cell the C++ dereferences `myInfo.end()` (undefined behaviour); the
model returns the invalid hint there. -/
def Page.contains (p : Page) (sz al off count : Nat) : Hint :=
  if al ≤ p.alignment ∧ off + sz * count ≤ p.info.length * p.alignment ∧
      off % p.alignment = 0 then
    let offset := off / p.alignment
    let blocks := size_in_blocks sz p.alignment count
    if offset < p.info.length then
      if (getInfo p.info offset).is_free = false ∧
          (getInfo p.info offset).size = blocks then
        ⟨offset, some p.info.length⟩
      else ⟨p.info.length, some p.info.length⟩
    else ⟨p.info.length, some p.info.length⟩
  else ⟨p.info.length, some p.info.length⟩

/-- `Page::try_occupy<_Ty>(count, hint)`: resolve the hint; if valid, split
off a free tail when the run is strictly larger than required (writing the
tail head and its backward link — but never touching the run after the
tail), bump the load by `blocks / blocks_count`, and convert the matched
head to an occupied head of exactly `blocks`.  Returns the block index of
the occupied run (the source returns the pointer at byte offset
`index * _Alignment`) together with the new state, or `none` for `nullptr`.
The hint version performs no alignment, freeness or size validation. -/
def Page.try_occupy_hint (p : Page) (sz count : Nat) (hint : Hint) :
    Option (Nat × Page) :=
  let blocks := size_in_blocks sz p.alignment count
  let iter := p.from_hint hint
  if iter < p.info.length then
    let size := (getInfo p.info iter).size
    let info₁ :=
      if blocks < size then
        let next := iter + blocks
        if next ≠ p.info.length then
          setInfo p.info next
            (((getInfo p.info next).make_head true (size - blocks)).set_prev
              (some iter))
        else p.info
      else p.info
    some (iter,
      { p with
        info := setInfo info₁ iter ((getInfo info₁ iter).make_head false blocks)
        myLoad := p.myLoad.add
          ((Frac.ofNat blocks).div (Frac.ofNat p.info.length)) })
  else none

/-- `Page::try_occupy<_Ty>(count)`: occupy at the hint produced by `fit`. -/
def Page.try_occupy (p : Page) (sz al count : Nat) : Option (Nat × Page) :=
  p.try_occupy_hint sz count (p.fit sz al count)

/-- The right-coalescing phase of `Page::release`: if the run after `iter`
exists and is free, repoint the run after it (if any) to `iter`, grow
`iter`'s head by the absorbed size, and clear the absorbed head.  Returns
the (possibly grown) size, the `farNext` position (`len` standing for the
initial `myInfo.end()`), and the updated directory. -/
def releaseRight (info : List PageBlockInfo) (len iter size0 : Nat) :
    Nat × Nat × List PageBlockInfo :=
  let next := iter + size0
  if next ≠ len ∧ (getInfo info next).is_free = true then
    let nextSize := (getInfo info next).size
    let farNext := next + nextSize
    let info₁ :=
      if farNext ≠ len then
        setInfo info farNext ((getInfo info farNext).set_prev (some iter))
      else info
    let info₂ := setInfo info₁ iter ((getInfo info₁ iter).make_head true (size0 + nextSize))
    let info₃ := setInfo info₂ next ((getInfo info₂ next).remove_head)
    (size0 + nextSize, farNext, info₃)
  else (size0, len, info)

/-- The left-coalescing phase of `Page::release`: if the backward-linked
head is free, grow it by the released size, clear the released head, and
repoint `farNext` (if set by the right phase) to the predecessor. -/
def releaseLeft (info : List PageBlockInfo) (len iter size1 farNext : Nat)
    (prev : Option Nat) : List PageBlockInfo :=
  match prev with
  | none => info
  | some pv =>
    if (getInfo info pv).is_free = true then
      let info₁ := setInfo info pv
        ((getInfo info pv).make_head true (size1 + (getInfo info pv).size))
      let info₂ := setInfo info₁ iter ((getInfo info₁ iter).remove_head)
      if farNext ≠ len then
        setInfo info₂ farNext ((getInfo info₂ farNext).set_prev (some pv))
      else info₂
    else info

/-- `Page::release(hint)`: resolve the hint (no occupancy check!), mark the
run free, subtract its fraction from the load, then coalesce right and
left.  Returns the success flag and the new state. -/
def Page.release (p : Page) (hint : Hint) : Bool × Page :=
  let iter := p.from_hint hint
  if iter < p.info.length then
    let size0 := (getInfo p.info iter).size
    let prev := (getInfo p.info iter).myPrev
    let infoA := setInfo p.info iter ((getInfo p.info iter).make_head true size0)
    let r := releaseRight infoA p.info.length iter size0
    let infoC := releaseLeft r.2.2 p.info.length iter r.1 r.2.1 prev
    (true,
      { p with
        info := infoC
        myLoad := p.myLoad.sub
          ((Frac.ofNat size0).div (Frac.ofNat p.info.length)) })
  else (false, p)

/-- `Page::release<_Ty>(ptr, count)`: `release(contains(ptr, count))`, the
pointer given as its byte offset `off`. -/
def Page.release_ptr (p : Page) (sz al off count : Nat) : Bool × Page :=
  (p.release (p.contains sz al off count))

/-- `Page::load_of<_Ty>(count)`: `(sizeof(_Ty) / (float)_Size) * count`. -/
def Page.load_of (sz pageSize count : Nat) : Frac :=
  ((Frac.ofNat sz).div (Frac.ofNat pageSize)).mul (Frac.ofNat count)

/-- `Page::max_load()`: the constant 1. -/
def Page.max_load : Frac := ⟨1, 1⟩

/-- Scan the directory's run heads starting at `i`: the list of run sizes,
or `none` if the scan hits a zero-size head or leaves the directory (the
directory then no longer forms contiguous runs).  Fuel-bounded; `runs`
below supplies enough fuel for any partition into positive runs. -/
def runsFrom (info : List PageBlockInfo) : Nat → Nat → Option (List Nat)
  | _, 0 => none
  | i, fuel + 1 =>
    if i = info.length then some []
    else if i < info.length then
      if (getInfo info i).size = 0 then none
      else (runsFrom info (i + (getInfo info i).size) fuel).map
        (fun l => (getInfo info i).size :: l)
    else none

/-- The directory's run-size list (scan from block 0). -/
def runs (info : List PageBlockInfo) : Option (List Nat) :=
  runsFrom info 0 (info.length + 1)

/-- Scan the run heads from `i` looking for two consecutive runs that are
both free. -/
def adjFreeFrom (info : List PageBlockInfo) : Nat → Nat → Bool
  | _, 0 => false
  | i, fuel + 1 =>
    if i < info.length then
      if (getInfo info i).size = 0 then false
      else if (getInfo info i).is_free = true ∧
          i + (getInfo info i).size < info.length ∧
          (getInfo info (i + (getInfo info i).size)).is_free = true then true
      else adjFreeFrom info (i + (getInfo info i).size) fuel
    else false

/-- Whether scanning the directory's run heads finds two consecutive free
runs. -/
def hasAdjacentFreeRuns (info : List PageBlockInfo) : Bool :=
  adjFreeFrom info 0 (info.length + 1)

/-- `Memory::Pool<_Size, _Alignment>` state: the `myPages` multimap as an
ascending-by-key list of (load key, page) entries, plus the running request
statistics.  `pageSize` and `pageAlignment` are the template arguments.
The background worker thread and the two reader/writer locks are
concurrency apparatus with no bearing on the sequential claims and are not
modelled. -/
structure Pool where
  pageSize : Nat
  pageAlignment : Nat
  myPages : List (Frac × Page)
  myAverageLoadRequest : Frac
  myRequestsCount : Nat
deriving DecidableEq

/-- `myPages.upper_bound(x)` as a position: the index of the first entry
whose key is `> x` (= the length when none is). -/
def upperBound (x : Frac) : List (Frac × Page) → Nat
  | [] => 0
  | e :: rest => if x.lt e.1 then 0 else upperBound x rest + 1

/-- Ordered (re)insertion into the key-sorted entry list, as
`std::multimap::emplace_hint` maintains; the position among equal keys is
irrelevant to the claims below. -/
def insertSorted (e : Frac × Page) : List (Frac × Page) → List (Frac × Page)
  | [] => [e]
  | x :: xs => if e.1.lt x.1 then e :: x :: xs else x :: insertSorted e xs

/-- The ascending-key well-formedness of the modelled multimap. -/
def keysSorted : List (Frac × Page) → Bool
  | [] => true
  | [_] => true
  | a :: b :: rest => decide (a.1.le b.1) && keysSorted (b :: rest)

/-- `Pool::occupy<_Ty>(count)`: compute the requested load; if the map is
non-empty, take `upper_bound(max_load() - load)`; at `begin()` fail,
otherwise step back one entry, extract it, read the page's load *before*
`try_occupy` (the source's local `load` shadows the request load and is
read pre-mutation), occupy, and reinsert under that pre-occupy key.
Independently fold the request load into the running average.  The result
pointer is modelled as (entry index in the pre-call list, block index). -/
def Pool.occupy (pool : Pool) (sz al count : Nat) :
    Option (Nat × Nat) × Pool :=
  let reqLoad := Page.load_of sz pool.pageSize count
  let res :=
    if pool.myPages = [] then (none, pool.myPages)
    else
      let ub := upperBound (Page.max_load.sub reqLoad) pool.myPages
      if ub = 0 then (none, pool.myPages)
      else
        let k := ub - 1
        let entry := pool.myPages.getD k default
        let rest := pool.myPages.eraseIdx k
        let oldLoad := entry.2.myLoad
        match entry.2.try_occupy sz al count with
        | some (bi, page') => (some (k, bi), insertSorted (oldLoad, page') rest)
        | none => (none, insertSorted (oldLoad, entry.2) rest)
  (res.1,
    { pool with
      myPages := res.2
      myAverageLoadRequest :=
        ((pool.myAverageLoadRequest.mul (Frac.ofNat pool.myRequestsCount)).add
          reqLoad).div (Frac.ofNat (pool.myRequestsCount + 1))
      myRequestsCount := pool.myRequestsCount + 1 })

/-! ### Basic facts about the directory representation -/

theorem length_setInfo (info : List PageBlockInfo) (i : Nat) (b : PageBlockInfo) :
    (setInfo info i b).length = info.length := by
  simp [setInfo]

theorem getInfo_setInfo_self (info : List PageBlockInfo) (i : Nat)
    (b : PageBlockInfo) (h : i < info.length) :
    getInfo (setInfo info i b) i = b := by
  induction info generalizing i with
  | nil => simp at h
  | cons x xs ih =>
    cases i with
    | zero => simp [getInfo, setInfo]
    | succ n =>
      simp only [getInfo, setInfo, List.set_cons_succ, List.getD_cons_succ]
      exact ih n (by simpa using h)

theorem getInfo_setInfo_ne (info : List PageBlockInfo) (i k : Nat)
    (b : PageBlockInfo) (h : i ≠ k) :
    getInfo (setInfo info i b) k = getInfo info k := by
  induction info generalizing i k with
  | nil => simp [getInfo, setInfo]
  | cons x xs ih =>
    cases i with
    | zero =>
      cases k with
      | zero => exact absurd rfl h
      | succ m => simp [getInfo, setInfo]
    | succ n =>
      cases k with
      | zero => simp [getInfo, setInfo]
      | succ m =>
        simp only [getInfo, setInfo, List.set_cons_succ, List.getD_cons_succ]
        exact ih n m (by omega)

/-- A clean scan from `i` covers exactly the blocks from `i` to the end. -/
theorem runsFrom_sum (info : List PageBlockInfo) :
    ∀ fuel i l, runsFrom info i fuel = some l → i + l.sum = info.length := by
  intro fuel
  induction fuel with
  | zero => intro i l h; simp [runsFrom] at h
  | succ n ih =>
    intro i l h
    rw [runsFrom] at h
    by_cases h1 : i = info.length
    · rw [if_pos h1] at h
      cases h
      simpa using h1
    · rw [if_neg h1] at h
      by_cases h2 : i < info.length
      · rw [if_pos h2] at h
        by_cases h3 : (getInfo info i).size = 0
        · rw [if_pos h3] at h; cases h
        · rw [if_neg h3] at h
          cases hr : runsFrom info (i + (getInfo info i).size) n with
          | none => rw [hr] at h; cases h
          | some l2 =>
            rw [hr] at h
            cases h
            have := ih _ _ hr
            simp only [List.sum_cons]
            omega
      · rw [if_neg h2] at h; cases h

/-- Whatever hint `fitLoop` returns carries the scan's end iterator. -/
theorem fitLoop_myEnd (info : List PageBlockInfo) (blocks : Nat) :
    ∀ fuel i, (fitLoop info blocks i fuel).myEnd = some info.length := by
  intro fuel
  induction fuel with
  | zero => intro i; simp [fitLoop]
  | succ n ih =>
    intro i
    rw [fitLoop]
    by_cases h1 : i < info.length
    · rw [if_pos h1]
      by_cases h2 : (getInfo info i).is_free = true ∧ blocks ≤ (getInfo info i).size
      · rw [if_pos h2]
      · rw [if_neg h2]; exact ih _
    · rw [if_neg h1]

/-- If `fitLoop` finds a position, that position is a free head of at
least the requested block count. -/
theorem fitLoop_found (info : List PageBlockInfo) (blocks : Nat) :
    ∀ fuel i, (fitLoop info blocks i fuel).myIter ≠ info.length →
      (fitLoop info blocks i fuel).myIter < info.length ∧
      (getInfo info (fitLoop info blocks i fuel).myIter).is_free = true ∧
      blocks ≤ (getInfo info (fitLoop info blocks i fuel).myIter).size := by
  intro fuel
  induction fuel with
  | zero => intro i h; simp [fitLoop] at h
  | succ n ih =>
    intro i h
    rw [fitLoop] at h ⊢
    by_cases h1 : i < info.length
    · rw [if_pos h1] at h ⊢
      by_cases h2 : (getInfo info i).is_free = true ∧ blocks ≤ (getInfo info i).size
      · rw [if_pos h2] at h ⊢
        exact ⟨h1, h2⟩
      · rw [if_neg h2] at h ⊢
        exact ih _ h
    · rw [if_neg h1] at h
      exact absurd rfl h

/-- On a cleanly scanning directory, the run found by `fitLoop` lies
entirely inside the directory. -/
theorem fitLoop_bound (info : List PageBlockInfo) (blocks : Nat) :
    ∀ fuel i l, runsFrom info i fuel = some l →
      (fitLoop info blocks i fuel).myIter ≠ info.length →
      (fitLoop info blocks i fuel).myIter +
        (getInfo info (fitLoop info blocks i fuel).myIter).size ≤ info.length := by
  intro fuel
  induction fuel with
  | zero => intro i l hr h; simp [runsFrom] at hr
  | succ n ih =>
    intro i l hr h
    rw [runsFrom] at hr
    rw [fitLoop] at h ⊢
    by_cases h1 : i = info.length
    · rw [if_pos h1] at hr
      have h1' : ¬ i < info.length := by omega
      rw [if_neg h1'] at h
      exact absurd rfl h
    · rw [if_neg h1] at hr
      by_cases h2 : i < info.length
      · rw [if_pos h2] at hr
        rw [if_pos h2] at h ⊢
        by_cases h3 : (getInfo info i).size = 0
        · rw [if_pos h3] at hr; cases hr
        · rw [if_neg h3] at hr
          cases hrec : runsFrom info (i + (getInfo info i).size) n with
          | none => rw [hrec] at hr; cases hr
          | some l2 =>
            by_cases h4 : (getInfo info i).is_free = true ∧
                blocks ≤ (getInfo info i).size
            · rw [if_pos h4] at h ⊢
              have := runsFrom_sum info n _ _ hrec
              show i + (getInfo info i).size ≤ info.length
              omega
            · rw [if_neg h4] at h ⊢
              exact ih _ _ hrec h
      · rw [if_neg h2] at hr; cases hr

/-- Without 64-bit wraparound, the rounded byte count dominates the raw
byte count. -/
theorem le_size_in_blocks (sz align count : Nat) (ha : 0 < align)
    (hov : sz * count + align ≤ 2 ^ 64) :
    sz * count ≤ size_in_blocks sz align count := by
  have hlt : sz * count < 2 ^ 64 := by omega
  have hlt2 : sz * count + align - 1 < 2 ^ 64 := by omega
  have e1 : sz * count % 2 ^ 64 = sz * count := Nat.mod_eq_of_lt hlt
  simp only [size_in_blocks, e1, Nat.mod_eq_of_lt hlt2]
  have hm : (sz * count + align - 1) % align < align :=
    Nat.mod_lt _ ha
  omega

/-- `try_occupy(count, hint)` success: the returned index is the resolved
hint position, inside the directory; geometry is preserved; the cell there
becomes an occupied head of exactly `size_in_blocks` blocks and the load
grows by its fraction. -/
theorem try_occupy_hint_some (p : Page) (sz count j : Nat) (hint : Hint)
    (p₁ : Page) (h : p.try_occupy_hint sz count hint = some (j, p₁)) :
    j = p.from_hint hint ∧ j < p.info.length ∧
    p₁.alignment = p.alignment ∧ p₁.info.length = p.info.length ∧
    (getInfo p₁.info j).mySize = -(size_in_blocks sz p.alignment count : Int) ∧
    p₁.myLoad = p.myLoad.add
      ((Frac.ofNat (size_in_blocks sz p.alignment count)).div
        (Frac.ofNat p.info.length)) := by
  rw [Page.try_occupy_hint] at h
  by_cases hlt : p.from_hint hint < p.info.length
  · rw [if_pos hlt] at h
    cases h
    have hlen₁ :
        (if size_in_blocks sz p.alignment count < (getInfo p.info (p.from_hint hint)).size then
          if p.from_hint hint + size_in_blocks sz p.alignment count ≠ p.info.length then
            setInfo p.info (p.from_hint hint + size_in_blocks sz p.alignment count)
              (((getInfo p.info
                (p.from_hint hint + size_in_blocks sz p.alignment count)).make_head true
                ((getInfo p.info (p.from_hint hint)).size -
                  size_in_blocks sz p.alignment count)).set_prev
                (some (p.from_hint hint)))
          else p.info
        else p.info).length = p.info.length := by
      split
      · split
        · exact length_setInfo _ _ _
        · rfl
      · rfl
    refine ⟨rfl, hlt, rfl, ?_, ?_, rfl⟩
    · simpa [length_setInfo] using hlen₁
    · rw [getInfo_setInfo_self _ _ _ (by rw [hlen₁]; exact hlt)]
      simp [PageBlockInfo.make_head]
  · rw [if_neg hlt] at h
    cases h

/-- Releasing via a structurally valid in-range hint always succeeds. -/
theorem release_valid_hint (p : Page) (j : Nat) (hj : j < p.info.length) :
    (p.release ⟨j, some p.info.length⟩).1 = true := by
  have hv : p.from_hint ⟨j, some p.info.length⟩ = j := by
    simp [Page.from_hint, Hint.is_valid_against]
    omega
  rw [Page.release, hv, if_pos hj]

/-- Releasing the invalid end hint fails and changes nothing. -/
theorem release_end_hint (p : Page) :
    p.release ⟨p.info.length, some p.info.length⟩ = (false, p) := by
  have hv : p.from_hint ⟨p.info.length, some p.info.length⟩ = p.info.length := by
    simp [Page.from_hint, Hint.is_valid_against]
  rw [Page.release, hv, if_neg (lt_irrefl _)]

/-- The right-coalescing phase preserves the directory length, keeps the
released cell a free head of the returned size, never shrinks the size,
and returns a `farNext` that is the end marker or lies beyond the released
cell. -/
theorem releaseRight_facts (info : List PageBlockInfo) (len j size0 : Nat)
    (hlen : info.length = len) (hj : j < len) (hpos : 0 < size0)
    (hcell : (getInfo info j).mySize = (size0 : Int)) :
    (releaseRight info len j size0).2.2.length = len ∧
    (getInfo (releaseRight info len j size0).2.2 j).mySize =
      ((releaseRight info len j size0).1 : Int) ∧
    size0 ≤ (releaseRight info len j size0).1 ∧
    ((releaseRight info len j size0).2.1 = len ∨
      j < (releaseRight info len j size0).2.1) := by
  by_cases hc : j + size0 ≠ len ∧ (getInfo info (j + size0)).is_free = true
  · have hne : j + size0 ≠ j := by omega
    simp only [releaseRight, if_pos hc]
    by_cases hfn : j + size0 + (getInfo info (j + size0)).size ≠ len
    · simp only [if_pos hfn]
      refine ⟨by simp only [length_setInfo, hlen], ?_, by omega, by omega⟩
      rw [getInfo_setInfo_ne _ _ _ _ hne,
        getInfo_setInfo_self _ _ _ (by simp only [length_setInfo, hlen]; omega)]
      simp [PageBlockInfo.make_head]
    · simp only [if_neg hfn]
      refine ⟨by simp only [length_setInfo, hlen], ?_, by omega, by omega⟩
      rw [getInfo_setInfo_ne _ _ _ _ hne,
        getInfo_setInfo_self _ _ _ (by simp only [length_setInfo, hlen]; omega)]
      simp [PageBlockInfo.make_head]
  · simp only [releaseRight, if_neg hc]
    exact ⟨hlen, hcell, by omega, Or.inl (by trivial)⟩

/-- After the left-coalescing phase the released cell is no head at all or
a free head: it can never again be the occupied head `contains` looks
for. -/
theorem releaseLeft_cell (info : List PageBlockInfo) (len j size1 farNext : Nat)
    (prev : Option Nat) (hlen : info.length = len) (hj : j < len)
    (hcell : (getInfo info j).mySize = (size1 : Int)) (hpos : 0 < size1)
    (hfar : farNext = len ∨ j < farNext) :
    (releaseLeft info len j size1 farNext prev).length = len ∧
    ((getInfo (releaseLeft info len j size1 farNext prev) j).mySize = 0 ∨
      0 < (getInfo (releaseLeft info len j size1 farNext prev) j).mySize) := by
  cases prev with
  | none =>
    exact ⟨hlen, Or.inr (by rw [releaseLeft, hcell]; exact_mod_cast hpos)⟩
  | some pv =>
    by_cases hfree : (getInfo info pv).is_free = true
    · simp only [releaseLeft, if_pos hfree]
      have hlen₁ : (setInfo info pv
          ((getInfo info pv).make_head true
            (size1 + (getInfo info pv).size))).length = len := by
        rw [length_setInfo]; exact hlen
      have hcell₂ : (getInfo (setInfo (setInfo info pv
          ((getInfo info pv).make_head true (size1 + (getInfo info pv).size))) j
          ((getInfo (setInfo info pv ((getInfo info pv).make_head true
            (size1 + (getInfo info pv).size))) j).remove_head)) j).mySize = 0 := by
        rw [getInfo_setInfo_self _ _ _ (by rw [hlen₁]; exact hj)]
        rfl
      by_cases hfn : farNext ≠ len
      · simp only [if_pos hfn]
        have hfj : farNext ≠ j := by omega
        constructor
        · simp only [length_setInfo]; exact hlen
        · left
          rw [getInfo_setInfo_ne _ _ _ _ hfj]
          exact hcell₂
      · simp only [if_neg hfn]
        refine ⟨by simp only [length_setInfo]; exact hlen, Or.inl hcell₂⟩
    · simp only [releaseLeft, if_neg hfree]
      exact ⟨hlen, Or.inr (by rw [hcell]; exact_mod_cast hpos)⟩

/-! ### Exact-gauge algebra and the ordered page map -/

/-- Adding and then subtracting the same exact fraction restores the
value. -/
theorem Frac.add_sub_eqv (l x : Frac) : ((l.add x).sub x).eqv l := by
  simp only [Frac.add, Frac.sub, Frac.eqv]
  ring

theorem Frac.le_refl (a : Frac) : a.le a := by
  simp [Frac.le]

theorem Frac.le_of_not_lt (a b : Frac) (h : ¬ a.lt b) : b.le a := by
  simp only [Frac.lt, Frac.le] at *
  omega

theorem Frac.le_trans_pos (a b c : Frac) (ha : 0 ≤ a.den) (hb : 0 < b.den)
    (hc : 0 < c.den) (h1 : a.le b) (h2 : b.le c) : a.le c := by
  simp only [Frac.le] at *
  have k1 := mul_le_mul_of_nonneg_right h1 hc.le
  have k2 := mul_le_mul_of_nonneg_right h2 ha
  have k3 : a.num * c.den * b.den ≤ c.num * a.den * b.den := by nlinarith
  exact le_of_mul_le_mul_right k3 hb

theorem Frac.lt_of_lt_of_le_pos (a b c : Frac) (ha : 0 ≤ a.den) (hb : 0 < b.den)
    (hc : 0 < c.den) (h1 : a.lt b) (h2 : b.le c) : a.lt c := by
  simp only [Frac.lt, Frac.le] at *
  have k1 := mul_lt_mul_of_pos_right h1 hc
  have k2 := mul_le_mul_of_nonneg_right h2 ha
  have k3 : a.num * c.den * b.den < c.num * a.den * b.den := by nlinarith
  exact lt_of_mul_lt_mul_right k3 hb.le

/-- Every denominator in the modelled multimap is positive (true of every
gauge the code builds; needed for the cross-multiplication order to be a
genuine order). -/
def densPos (l : List (Frac × Page)) : Prop := ∀ e ∈ l, 0 < e.1.den

instance (l : List (Frac × Page)) : Decidable (densPos l) :=
  inferInstanceAs (Decidable (∀ e ∈ l, 0 < e.1.den))

theorem getD_mem (l : List (Frac × Page)) (i : Nat) (h : i < l.length) :
    l.getD i default ∈ l := by
  induction l generalizing i with
  | nil => simp at h
  | cons x xs ih =>
    cases i with
    | zero => simp
    | succ n =>
      simp only [List.getD_cons_succ]
      exact List.mem_cons_of_mem _ (ih n (by simpa using h))

theorem keysSorted_tail (a : Frac × Page) (l : List (Frac × Page))
    (h : keysSorted (a :: l) = true) : keysSorted l = true := by
  cases l with
  | nil => rfl
  | cons b r =>
    simp only [keysSorted, Bool.and_eq_true, decide_eq_true_eq] at h
    simpa [keysSorted] using h.2

theorem keysSorted_head_le (a : Frac × Page) (l : List (Frac × Page))
    (hs : keysSorted (a :: l) = true) (hd : densPos (a :: l)) :
    ∀ i, i < l.length → a.1.le (l.getD i default).1 := by
  induction l generalizing a with
  | nil => intro i h; simp at h
  | cons b r ih =>
    intro i hi
    have hab : a.1.le b.1 := by
      simp only [keysSorted, Bool.and_eq_true, decide_eq_true_eq] at hs
      exact hs.1
    cases i with
    | zero => simpa using hab
    | succ n =>
      simp only [List.getD_cons_succ]
      have hbr : keysSorted (b :: r) = true := keysSorted_tail a _ hs
      have hd' : densPos (b :: r) := fun e he => hd e (List.mem_cons_of_mem _ he)
      have hn : n < r.length := by simpa using hi
      have hb := ih b hbr hd' n hn
      exact Frac.le_trans_pos a.1 b.1 _ (hd a (by simp)).le (hd' b (by simp))
        (hd' _ (List.mem_cons_of_mem _ (getD_mem r n hn))) hab hb

theorem keysSorted_getD_mono (l : List (Frac × Page)) (hs : keysSorted l = true)
    (hd : densPos l) : ∀ i k, i ≤ k → k < l.length →
      ((l.getD i default).1).le ((l.getD k default).1) := by
  induction l with
  | nil => intro i k _ hk; simp at hk
  | cons e r ih =>
    intro i k hik hk
    cases i with
    | zero =>
      cases k with
      | zero => exact Frac.le_refl _
      | succ n =>
        simp only [List.getD_cons_zero, List.getD_cons_succ]
        exact keysSorted_head_le e r hs hd n (by simpa using hk)
    | succ m =>
      cases k with
      | zero => omega
      | succ n =>
        simp only [List.getD_cons_succ]
        exact ih (keysSorted_tail e r hs)
          (fun f hf => hd f (List.mem_cons_of_mem _ hf)) m n (by omega)
          (by simpa using hk)

theorem upperBound_le_length (x : Frac) (l : List (Frac × Page)) :
    upperBound x l ≤ l.length := by
  induction l with
  | nil => simp [upperBound]
  | cons e r ih =>
    rw [upperBound]
    split
    · simp
    · simpa using Nat.succ_le_succ ih

/-- Entries before `upper_bound(x)` have keys `≤ x`. -/
theorem upperBound_lt_imp_le (x : Frac) (l : List (Frac × Page)) :
    ∀ i, i < upperBound x l → ((l.getD i default).1).le x := by
  induction l with
  | nil => intro i h; simp [upperBound] at h
  | cons e r ih =>
    intro i h
    rw [upperBound] at h
    by_cases hx : x.lt e.1
    · rw [if_pos hx] at h; omega
    · rw [if_neg hx] at h
      cases i with
      | zero => simpa using Frac.le_of_not_lt x e.1 hx
      | succ n =>
        simp only [List.getD_cons_succ]
        exact ih n (by omega)

/-- Entries from `upper_bound(x)` on have keys `> x` (sorted map). -/
theorem upperBound_le_imp_gt (x : Frac) (l : List (Frac × Page))
    (hs : keysSorted l = true) (hd : densPos l) (hx : 0 ≤ x.den) :
    ∀ i, i < l.length → upperBound x l ≤ i → x.lt ((l.getD i default).1) := by
  induction l with
  | nil => intro i h; simp at h
  | cons e r ih =>
    intro i hi hub
    rw [upperBound] at hub
    by_cases hlt : x.lt e.1
    · cases i with
      | zero => simpa using hlt
      | succ n =>
        simp only [List.getD_cons_succ]
        have hn : n < r.length := by simpa using hi
        have hle := keysSorted_head_le e r hs hd n hn
        exact Frac.lt_of_lt_of_le_pos x e.1 _ hx (hd e (by simp))
          (hd _ (List.mem_cons_of_mem _ (getD_mem r n hn))) hlt hle
    · rw [if_neg hlt] at hub
      cases i with
      | zero => omega
      | succ n =>
        simp only [List.getD_cons_succ]
        exact ih (keysSorted_tail e r hs)
          (fun f hf => hd f (List.mem_cons_of_mem _ hf)) n (by simpa using hi)
          (by omega)

/-- Resolving a structurally valid in-range hint. -/
theorem from_hint_valid (p : Page) (j : Nat) (hj : j < p.info.length) :
    p.from_hint ⟨j, some p.info.length⟩ = j := by
  rw [Page.from_hint]
  have : Hint.is_valid_against ⟨j, some p.info.length⟩ p.info.length = true := by
    simp [Hint.is_valid_against]
    omega
  rw [if_pos this]

/-- Unfolding of a successful `release` through its two coalescing
phases. -/
theorem release_some (p : Page) (j : Nat) (hj : j < p.info.length) :
    p.release ⟨j, some p.info.length⟩ =
      (true,
        { p with
          info :=
            releaseLeft
              (releaseRight
                (setInfo p.info j
                  ((getInfo p.info j).make_head true (getInfo p.info j).size))
                p.info.length j (getInfo p.info j).size).2.2
              p.info.length j
              (releaseRight
                (setInfo p.info j
                  ((getInfo p.info j).make_head true (getInfo p.info j).size))
                p.info.length j (getInfo p.info j).size).1
              (releaseRight
                (setInfo p.info j
                  ((getInfo p.info j).make_head true (getInfo p.info j).size))
                p.info.length j (getInfo p.info j).size).2.1
              (getInfo p.info j).myPrev
          myLoad := p.myLoad.sub
            ((Frac.ofNat (getInfo p.info j).size).div
              (Frac.ofNat p.info.length)) }) := by
  simp only [Page.release, from_hint_valid p j hj]
  rw [if_pos hj]

/-- If the pointer + count do not resolve to an in-range, block-aligned,
currently occupied head of exactly the expected block count, `contains`
yields the invalid end hint. -/
theorem contains_miss (p : Page) (sz al off count : Nat)
    (h : ¬ (al ≤ p.alignment ∧ off + sz * count ≤ p.info.length * p.alignment ∧
      off % p.alignment = 0 ∧ off / p.alignment < p.info.length ∧
      (getInfo p.info (off / p.alignment)).is_free = false ∧
      (getInfo p.info (off / p.alignment)).size =
        size_in_blocks sz p.alignment count)) :
    p.contains sz al off count = ⟨p.info.length, some p.info.length⟩ := by
  simp only [Page.contains]
  by_cases h1 : al ≤ p.alignment ∧ off + sz * count ≤ p.info.length * p.alignment ∧
      off % p.alignment = 0
  · rw [if_pos h1]
    by_cases h2 : off / p.alignment < p.info.length
    · rw [if_pos h2]
      have h3 : ¬ ((getInfo p.info (off / p.alignment)).is_free = false ∧
          (getInfo p.info (off / p.alignment)).size =
            size_in_blocks sz p.alignment count) := by
        intro hc
        exact h ⟨h1.1, h1.2.1, h1.2.2, h2, hc.1, hc.2⟩
      rw [if_neg h3]
    · rw [if_neg h2]
  · rw [if_neg h1]

/-- A release through a non-resolving pointer + count fails and leaves the
page unchanged. -/
theorem release_ptr_miss (p : Page) (sz al off count : Nat)
    (h : ¬ (al ≤ p.alignment ∧ off + sz * count ≤ p.info.length * p.alignment ∧
      off % p.alignment = 0 ∧ off / p.alignment < p.info.length ∧
      (getInfo p.info (off / p.alignment)).is_free = false ∧
      (getInfo p.info (off / p.alignment)).size =
        size_in_blocks sz p.alignment count)) :
    p.release_ptr sz al off count = (false, p) := by
  rw [Page.release_ptr, contains_miss p sz al off count h]
  exact release_end_hint p

/-- `try_occupy` (the `fit`-driven overload) success: the type's alignment
is admissible and the returned index is a free head large enough for the
request which, on a cleanly scanning directory, lies wholly inside it. -/
theorem try_occupy_fit_facts (st : Page) (sz al count j : Nat) (st₁ : Page)
    (hwf : (runs st.info).isSome = true)
    (hocc : st.try_occupy sz al count = some (j, st₁)) :
    al ≤ st.alignment ∧ j < st.info.length ∧
    (getInfo st.info j).is_free = true ∧
    size_in_blocks sz st.alignment count ≤ (getInfo st.info j).size ∧
    j + (getInfo st.info j).size ≤ st.info.length := by
  obtain ⟨hj0, hjlt, -, -, -, -⟩ :=
    try_occupy_hint_some st sz count j _ st₁ hocc
  by_cases hal : al ≤ st.alignment
  · rw [Page.fit, if_pos hal] at hj0
    rw [Page.from_hint] at hj0
    have hend := fitLoop_myEnd st.info (size_in_blocks sz st.alignment count)
      (st.info.length + 1) 0
    by_cases hv : Hint.is_valid_against
        (fitLoop st.info (size_in_blocks sz st.alignment count) 0
          (st.info.length + 1)) st.info.length = true
    · rw [if_pos hv] at hj0
      have hne : (fitLoop st.info (size_in_blocks sz st.alignment count) 0
          (st.info.length + 1)).myIter ≠ st.info.length := by omega
      have hf := fitLoop_found st.info (size_in_blocks sz st.alignment count)
        (st.info.length + 1) 0 hne
      obtain ⟨l, hl⟩ := Option.isSome_iff_exists.mp hwf
      have hb := fitLoop_bound st.info (size_in_blocks sz st.alignment count)
        (st.info.length + 1) 0 l hl hne
      rw [← hj0] at hf hb
      exact ⟨hal, hjlt, hf.2.1, hf.2.2, hb⟩
    · rw [if_neg hv] at hj0
      omega
  · exfalso
    rw [Page.fit, if_neg hal, Page.from_hint] at hj0
    have : Hint.is_valid_against
        (⟨st.info.length, some st.info.length⟩ : Hint) st.info.length = false := by
      simp [Hint.is_valid_against]
    rw [this] at hj0
    simp at hj0
    omega

/-! ### Concrete reachable states (a `Page<8,1>`: 8 blocks of 1 byte) -/

/-- A fresh `Page<8,1>`. -/
def page8 : Page := freshPage 1 8

/-- `try_occupy<char>(2)` on the fresh page: occupied 2-run at block 0. -/
def occ2a : Nat × Page := (page8.try_occupy 1 1 2).getD (0, page8)

/-- Second `try_occupy<char>(2)`: occupied 2-run at block 2. -/
def occ2b : Nat × Page := (occ2a.2.try_occupy 1 1 2).getD (0, page8)

/-- Third `try_occupy<char>(2)`: occupied 2-run at block 4. -/
def occ2c : Nat × Page := (occ2b.2.try_occupy 1 1 2).getD (0, page8)

/-- `release(ptr@0, 2)`: frees the first 2-run. -/
def rel2a : Bool × Page := occ2c.2.release_ptr 1 1 0 2

/-- `try_occupy<char>(1)`: splits the freed 2-run; the run at block 2 keeps
its stale backward link to block 0. -/
def occ1a : Nat × Page := (rel2a.2.try_occupy 1 1 1).getD (0, page8)

/-- `release(ptr@2, 2)` on `occ1a`: the C4 end state. -/
def relC4 : Bool × Page := occ1a.2.release_ptr 1 1 2 2

/-- `try_occupy<char>(1)` on `occ1a`: occupies the 1-block hole at 1. -/
def occ1b : Nat × Page := (occ1a.2.try_occupy 1 1 1).getD (0, page8)

/-- `release(ptr@0, 1)` on `occ1b`. -/
def rel1a : Bool × Page := occ1b.2.release_ptr 1 1 0 1

/-- `release(ptr@2, 2)` on `rel1a`: the C5 end state. -/
def relC5 : Bool × Page := rel1a.2.release_ptr 1 1 2 2

/-- `try_occupy<char>(4)` on the fresh page (C3 chain). -/
def occ4a : Nat × Page := (page8.try_occupy 1 1 4).getD (0, page8)

/-- `try_occupy<char>(2)` after it (C3 chain). -/
def occ2d : Nat × Page := (occ4a.2.try_occupy 1 1 2).getD (0, page8)

/-- `release(ptr@0, 4)` (C3 chain): free 4-run at 0, occupied 2-run at 4
with backward link to 0, free 2-run at 6. -/
def rel4a : Bool × Page := occ2d.2.release_ptr 1 1 0 4

/-- The C3 split: `try_occupy<char>(2, hint@0)` on `rel4a`. -/
def splitC3 : Nat × Page := (rel4a.2.try_occupy_hint 1 2 ⟨0, some 8⟩).getD (0, page8)

/-- `try_occupy<char>(0)` on the fresh page (C6 counterexample). -/
def occZero : Nat × Page := (page8.try_occupy 1 1 0).getD (0, page8)

/-- First `release(ptr@0, 0)` after it. -/
def relZeroA : Bool × Page := occZero.2.release_ptr 1 1 0 0

/-- The C10 state: `try_occupy<char>(1, hint@0)` on `occ2a` whose hinted
head is occupied. -/
def occC10 : Nat × Page := (occ2a.2.try_occupy_hint 1 1 ⟨0, some 8⟩).getD (0, page8)

/-- A `Pool<8,1>` holding the single fresh page under key 0. -/
def poolC2 : Pool := ⟨8, 1, [(⟨0, 1⟩, page8)], ⟨0, 1⟩, 0⟩

/-- A 20-block page record carrying an arbitrary load gauge (for the pool
selection example). -/
def pageLoaded (l : Frac) : Page :=
  { alignment := 1, info := (freshPage 1 20).info, myLoad := l }

/-- A `Pool<20,1>` with pages of loads 0.1, 0.4 and 0.8, each keyed by its
load. -/
def poolC7 : Pool :=
  ⟨20, 1,
    [(⟨1, 10⟩, pageLoaded ⟨1, 10⟩), (⟨2, 5⟩, pageLoaded ⟨2, 5⟩),
      (⟨4, 5⟩, pageLoaded ⟨4, 5⟩)], ⟨0, 1⟩, 0⟩

/-- `try_occupy<char>(2, hint@0)` on the fresh page (C9 witness). -/
def occHintW : Nat × Page := (page8.try_occupy_hint 1 2 ⟨0, some 8⟩).getD (0, page8)

/-! ### The claims -/

/-- **C1** (code bug): `Page::fit` does *not* compute the required number
of blocks as `ceil(sizeof(T)*count / Alignment)` — `size_in_blocks` rounds
the byte size up to a multiple of the alignment but never divides by it,
so the "block" requirement is an alignment-times-too-large byte count.
For `Page<64,8>` (8 blocks) and a type with `sizeof = alignof = 8`,
`count = 2`: the code requires 16 "blocks" instead of `ceil(16/8) = 2`,
and the fresh page's single free 8-block run — which the claimed formula
accepts at the very first head (`2 ≤ 8`) — is rejected: `fit` returns an
invalid Hint. -/
theorem C1_fit_required_blocks_bug :
    size_in_blocks 8 8 2 = 16 ∧
    (8 * 2 + 8 - 1) / 8 = 2 ∧
    (getInfo (freshPage 8 8).info 0).is_free = true ∧
    (getInfo (freshPage 8 8).info 0).size = 8 ∧
    ((freshPage 8 8).fit 8 8 2).is_valid = false := by
  decide

/-- **C2** (code bug): after a successful `Pool::occupy` the chosen page
is reinserted under its *pre*-occupy load — the source's local
`auto const load = page->load();` is read *before* `try_occupy` runs — so
the multimap key stops matching the page's load.  Concretely: a
`Pool<8,1>` with one fresh page keyed 0; `occupy<char>(4)` succeeds, the
page's load becomes 1/2, yet the entry is reinserted still keyed 0. -/
theorem C2_pool_reinserts_stale_load_key :
    (poolC2.occupy 1 1 4).1 = some (0, 0) ∧
    ((poolC2.occupy 1 1 4).2.myPages.getD 0 default).1 = ⟨0, 1⟩ ∧
    ((poolC2.occupy 1 1 4).2.myPages.getD 0 default).2.myLoad.eqv ⟨1, 2⟩ ∧
    ¬ ((poolC2.occupy 1 1 4).2.myPages.getD 0 default).1.eqv
        ((poolC2.occupy 1 1 4).2.myPages.getD 0 default).2.myLoad := by
  decide

/-- **C3** (code bug): the split in `try_occupy` writes the tail head and
its backward link, but never repoints the run immediately following the
tail, contradicting the claimed (and spec-stated) behaviour.  Reachable
witness: on `Page<8,1>` occupy 4, occupy 2, release the 4-run; the state
has a free 4-run at block 0, an occupied 2-run at block 4 linking back to
block 0, and a free 2-run at 6.  `try_occupy<char>(2, hint@0)` (run size
4 > required 2) creates the tail head `⟨prev 0, free 2⟩` at block 2 as
claimed, but the following run's head at block 4 still links back to
block 0 instead of the new tail at block 2. -/
theorem C3_split_leaves_following_backlink_stale :
    page8.try_occupy 1 1 4 = some (0, occ4a.2) ∧
    occ4a.2.try_occupy 1 1 2 = some (4, occ2d.2) ∧
    occ2d.2.release_ptr 1 1 0 4 = (true, rel4a.2) ∧
    (getInfo rel4a.2.info 0).is_free = true ∧
    (getInfo rel4a.2.info 0).size = 4 ∧
    (Hint.mk 0 (some 8)).is_valid_against rel4a.2.info.length = true ∧
    size_in_blocks 1 1 2 = 2 ∧
    rel4a.2.try_occupy_hint 1 2 ⟨0, some 8⟩ = some (0, splitC3.2) ∧
    getInfo splitC3.2.info 2 = ⟨some 0, 2⟩ ∧
    (getInfo splitC3.2.info 4).size = 2 ∧
    (getInfo splitC3.2.info 4).myPrev = some 0 ∧
    (getInfo splitC3.2.info 4).myPrev ≠ some 2 := by
  decide

/-- **C4** (code bug): a reachable 6-operation sequence on a fresh
`Page<8,1>` — occupy 2, occupy 2, occupy 2, release the first 2-run,
occupy 1 (splitting the freed hole), release the 2-run at block 2 — ends
in a successful release after which the run-head scan finds two
consecutive free runs (1 block at block 1, 2 blocks at block 2): the
freed run is not coalesced with its free left neighbour because its
backward link still points at the head at block 0, gone stale at the
preceding split. -/
theorem C4_adjacent_free_runs_reachable :
    page8.try_occupy 1 1 2 = some (0, occ2a.2) ∧
    occ2a.2.try_occupy 1 1 2 = some (2, occ2b.2) ∧
    occ2b.2.try_occupy 1 1 2 = some (4, occ2c.2) ∧
    occ2c.2.release_ptr 1 1 0 2 = (true, rel2a.2) ∧
    rel2a.2.try_occupy 1 1 1 = some (0, occ1a.2) ∧
    occ1a.2.release_ptr 1 1 2 2 = (true, relC4.2) ∧
    hasAdjacentFreeRuns relC4.2.info = true ∧
    (getInfo relC4.2.info 1).is_free = true ∧
    (getInfo relC4.2.info 1).size = 1 ∧
    (getInfo relC4.2.info 2).is_free = true ∧
    (getInfo relC4.2.info 2).size = 2 := by
  decide

/-- **C5** (code bug): extending the C4 sequence with occupy 1, release of
the 1-run at block 0, and release of the 2-run at block 2 (8 operations,
all successful) leaves a directory that no longer partitions the page
into runs: the stale backward link makes `release` left-merge the freed
2-run into the non-adjacent free head at block 0, which then claims 3
blocks while an occupied 1-block head still sits at block 1; the head
scan hits a zero-size cell at block 3, so the run sizes no longer sum to
the capacity 8 (the fresh page scans as a single 8-block run). -/
theorem C5_conservation_violated_reachable :
    runs page8.info = some [8] ∧
    occ1a.2.try_occupy 1 1 1 = some (1, occ1b.2) ∧
    occ1b.2.release_ptr 1 1 0 1 = (true, rel1a.2) ∧
    rel1a.2.release_ptr 1 1 2 2 = (true, relC5.2) ∧
    runs relC5.2.info = none ∧
    (getInfo relC5.2.info 0).mySize = 3 ∧
    (getInfo relC5.2.info 1).mySize = -1 ∧
    (getInfo relC5.2.info 3).size = 0 := by
  decide

/-- **C6** (counterexample to the claim as stated): with `count = 0` (a
legal request) on a fresh `Page<8,1>`, `try_occupy<char>(0)` returns a
non-null pointer to block 0, `contains` resolves it to a valid Hint — and
release via pointer + count succeeds *twice*: the occupied head has block
count 0, which `contains` accepts again after the first release (the
first release also destroys the page's only free-run head as a side
effect). -/
theorem C6_round_trip_counterexample :
    page8.try_occupy 1 1 0 = some (0, occZero.2) ∧
    (occZero.2.contains 1 1 0 0).is_valid = true ∧
    occZero.2.release_ptr 1 1 0 0 = (true, relZeroA.2) ∧
    (relZeroA.2.release_ptr 1 1 0 0).1 = true := by
  decide

/-- **C6** (amended): on every page state whose directory scans cleanly
into positive-size runs, for every request with `sizeof(T) * count ≥ 1`
whose byte size does not overflow `size_t`, if `try_occupy<T>(count)`
returns a pointer (block index `j`, byte offset `j * Alignment`), then
`contains` on the resulting state resolves that pointer to the valid Hint
of block `j`, releasing via pointer + count succeeds, and a second release
of the same pointer + count on the resulting state fails. -/
theorem C6_round_trip_amended (st : Page) (sz al count j : Nat) (st₁ : Page)
    (hal : 0 < st.alignment)
    (hwf : (runs st.info).isSome = true)
    (hpos : 1 ≤ sz * count)
    (hov : sz * count + st.alignment ≤ 2 ^ 64)
    (hocc : st.try_occupy sz al count = some (j, st₁)) :
    st₁.contains sz al (j * st.alignment) count = ⟨j, some st.info.length⟩ ∧
    (st₁.contains sz al (j * st.alignment) count).is_valid = true ∧
    (st₁.release_ptr sz al (j * st.alignment) count).1 = true ∧
    ((st₁.release_ptr sz al (j * st.alignment) count).2.release_ptr sz al
        (j * st.alignment) count).1 = false := by
  obtain ⟨-, hjlt, halign, hlen, hcell, -⟩ :=
    try_occupy_hint_some st sz count j _ st₁ hocc
  obtain ⟨hal2, -, -, hge, hbound⟩ :=
    try_occupy_fit_facts st sz al count j st₁ hwf hocc
  have hsc : sz * count ≤ size_in_blocks sz st.alignment count :=
    le_size_in_blocks sz st.alignment count hal hov
  have hBpos : 0 < size_in_blocks sz st.alignment count := by omega
  have hb1 : j * st.alignment + sz * count ≤ st.info.length * st.alignment := by
    have h1 : sz * count ≤ st.info.length - j := by omega
    have h2 : st.info.length - j ≤ (st.info.length - j) * st.alignment :=
      Nat.le_mul_of_pos_right _ hal
    have h3 : j * st.alignment + (st.info.length - j) * st.alignment =
        st.info.length * st.alignment := by
      rw [← Nat.add_mul]
      congr 1
      omega
    omega
  have hmod : (j * st.alignment) % st.alignment = 0 := Nat.mul_mod_left _ _
  have hdiv : (j * st.alignment) / st.alignment = j := Nat.mul_div_cancel j hal
  have hfree₁ : (getInfo st₁.info j).is_free = false := by
    rw [PageBlockInfo.is_free, hcell]
    simp only [decide_eq_false_iff_not, not_lt]
    omega
  have hsize₁ : (getInfo st₁.info j).size = size_in_blocks sz st.alignment count := by
    rw [PageBlockInfo.size, hcell]
    simp
  have hcont : st₁.contains sz al (j * st.alignment) count =
      ⟨j, some st.info.length⟩ := by
    simp only [Page.contains, halign, hlen]
    rw [if_pos ⟨hal2, hb1, hmod⟩, hdiv, if_pos hjlt, if_pos ⟨hfree₁, hsize₁⟩]
  refine ⟨hcont, by rw [hcont]; simp [Hint.is_valid]; omega, ?_, ?_⟩
  · rw [Page.release_ptr, hcont, ← hlen]
    exact release_valid_hint st₁ j (by omega)
  · -- the state after the first release
    have hjlt₁ : j < st₁.info.length := by omega
    have hrel := release_some st₁ j hjlt₁
    -- facts about the released directory
    have hlenA : (setInfo st₁.info j ((getInfo st₁.info j).make_head true
        (getInfo st₁.info j).size)).length = st₁.info.length :=
      length_setInfo _ _ _
    have hcellA : (getInfo (setInfo st₁.info j ((getInfo st₁.info j).make_head true
        (getInfo st₁.info j).size)) j).mySize = ((getInfo st₁.info j).size : Int) := by
      rw [getInfo_setInfo_self _ _ _ hjlt₁]
      simp [PageBlockInfo.make_head]
    have hs0pos : 0 < (getInfo st₁.info j).size := by rw [hsize₁]; omega
    obtain ⟨hrrLen, hrrCell, hrrGe, hrrFar⟩ :=
      releaseRight_facts _ st₁.info.length j (getInfo st₁.info j).size hlenA hjlt₁
        hs0pos hcellA
    obtain ⟨hllLen, hllCell⟩ :=
      releaseLeft_cell _ st₁.info.length j _ _ (getInfo st₁.info j).myPrev hrrLen
        hjlt₁ hrrCell (by omega) hrrFar
    -- project the phase facts onto the released page
    have hrelptr : st₁.release_ptr sz al (j * st.alignment) count =
        st₁.release ⟨j, some st₁.info.length⟩ := by
      rw [Page.release_ptr, hcont, ← hlen]
    have hcellF : (getInfo (st₁.release ⟨j, some st₁.info.length⟩).2.info j).mySize = 0 ∨
        0 < (getInfo (st₁.release ⟨j, some st₁.info.length⟩).2.info j).mySize := by
      rw [hrel]
      exact hllCell
    have halignF : (st₁.release ⟨j, some st₁.info.length⟩).2.alignment =
        st₁.alignment := by
      rw [hrel]
    rw [hrelptr]
    rw [release_ptr_miss _ sz al (j * st.alignment) count ?_]
    intro hcon
    obtain ⟨-, -, -, -, c5, c6⟩ := hcon
    rw [halignF, halign, hdiv] at c5
    rw [halignF, halign, hdiv] at c6
    rcases hcellF with h0 | hp
    · rw [PageBlockInfo.size, h0] at c6
      simp at c6
      omega
    · rw [PageBlockInfo.is_free] at c5
      simp only [decide_eq_false_iff_not, not_lt] at c5
      omega

/-- Witness for the amended C6 at a concrete input: the fresh `Page<8,1>`
and `try_occupy<char>(2)` landing at block 0. -/
theorem C6_round_trip_amended_witness :
    (0 < page8.alignment ∧ (runs page8.info).isSome = true ∧ 1 ≤ 1 * 2 ∧
      1 * 2 + page8.alignment ≤ 2 ^ 64 ∧
      page8.try_occupy 1 1 2 = some (0, occ2a.2)) ∧
    (occ2a.2.contains 1 1 (0 * page8.alignment) 2 =
        ⟨0, some page8.info.length⟩ ∧
      (occ2a.2.contains 1 1 (0 * page8.alignment) 2).is_valid = true ∧
      (occ2a.2.release_ptr 1 1 (0 * page8.alignment) 2).1 = true ∧
      ((occ2a.2.release_ptr 1 1 (0 * page8.alignment) 2).2.release_ptr 1 1
          (0 * page8.alignment) 2).1 = false) :=
  ⟨⟨by decide, by decide, by decide, by decide, by decide⟩,
    C6_round_trip_amended page8 1 1 2 0 occ2a.2 (by decide) (by decide)
      (by decide) (by decide) (by decide)⟩

/-- **C8** (counterexample to the claim as stated): `release(Hint)` never
checks that the resolved head is occupied.  On a fresh `Page<8,1>` the
structurally valid hint to block 0 points at a *free* head — an argument
that "does not resolve to a currently occupied head" — yet release
returns true and mutates the load gauge (0 becomes 0 - 8/8 = -1). -/
theorem C8_release_counterexample :
    (getInfo page8.info 0).is_free = true ∧
    (page8.release ⟨0, some 8⟩).1 = true ∧
    ¬ ((page8.release ⟨0, some 8⟩).2.myLoad.eqv page8.myLoad) := by
  decide

/-- **C8** (amended): for the pointer + count form the claim holds — if
the argument does not resolve (via `contains`) to an in-range,
block-aligned, currently occupied head of exactly the expected block
count, `release` returns false and leaves the page (directory and load
gauge) completely unchanged, and a hint failing structural validation is
likewise a failing no-op.  A structurally *valid* hint, however, is
trusted and released without any occupancy check — the part of the claim
the counterexample refutes. -/
theorem C8_release_noop_amended (p : Page) (sz al off count : Nat) (hint : Hint)
    (hptr : ¬ (al ≤ p.alignment ∧ off + sz * count ≤ p.info.length * p.alignment ∧
      off % p.alignment = 0 ∧ off / p.alignment < p.info.length ∧
      (getInfo p.info (off / p.alignment)).is_free = false ∧
      (getInfo p.info (off / p.alignment)).size =
        size_in_blocks sz p.alignment count))
    (hhint : hint.is_valid_against p.info.length = false) :
    p.release_ptr sz al off count = (false, p) ∧
    p.release hint = (false, p) := by
  refine ⟨release_ptr_miss p sz al off count hptr, ?_⟩
  have hfh : p.from_hint hint = p.info.length := by
    rw [Page.from_hint, hhint]
    simp
  simp only [Page.release, hfh]
  rw [if_neg (lt_irrefl _)]

/-- Witness for the amended C8 at concrete inputs: on the fresh
`Page<8,1>`, the pointer at offset 0 (whose head is free, hence not an
occupied head — a double-free shape) and a default-constructed hint. -/
theorem C8_release_noop_amended_witness :
    (¬ (1 ≤ page8.alignment ∧ 0 + 1 * 1 ≤ page8.info.length * page8.alignment ∧
      0 % page8.alignment = 0 ∧ 0 / page8.alignment < page8.info.length ∧
      (getInfo page8.info (0 / page8.alignment)).is_free = false ∧
      (getInfo page8.info (0 / page8.alignment)).size =
        size_in_blocks 1 page8.alignment 1)) ∧
    (Hint.mk 0 none).is_valid_against page8.info.length = false ∧
    page8.release_ptr 1 1 0 1 = (false, page8) ∧
    page8.release ⟨0, none⟩ = (false, page8) :=
  ⟨by decide, by decide,
    (C8_release_noop_amended page8 1 1 0 1 ⟨0, none⟩ (by decide) (by decide)).1,
    (C8_release_noop_amended page8 1 1 0 1 ⟨0, none⟩ (by decide) (by decide)).2⟩

/-- **C9** (confirmed, in the exact-arithmetic float model): a successful
`try_occupy` that takes a run of `n = size_in_blocks` blocks raises
`load()` by exactly `n / blocks_count`, and a subsequent release of that
same run (via its hint) succeeds and returns `load()` exactly to its
pre-occupy value — the claim's "within floating-point tolerance" is
realized as exact value equality of the gauges. -/
theorem C9_load_monotonicity (st : Page) (sz count j : Nat) (hint : Hint)
    (st₁ : Page) (hocc : st.try_occupy_hint sz count hint = some (j, st₁)) :
    st₁.myLoad = st.myLoad.add
      ((Frac.ofNat (size_in_blocks sz st.alignment count)).div
        (Frac.ofNat st.info.length)) ∧
    (st₁.release ⟨j, some st₁.info.length⟩).1 = true ∧
    ((st₁.release ⟨j, some st₁.info.length⟩).2.myLoad).eqv st.myLoad := by
  obtain ⟨hj0, hjlt, halign, hlen, hcell, hload⟩ :=
    try_occupy_hint_some st sz count j hint st₁ hocc
  have hjlt₁ : j < st₁.info.length := by omega
  refine ⟨hload, release_valid_hint st₁ j hjlt₁, ?_⟩
  have hrel := release_some st₁ j hjlt₁
  have hsz : (getInfo st₁.info j).size = size_in_blocks sz st.alignment count := by
    rw [PageBlockInfo.size, hcell]
    simp
  rw [hrel]
  show (st₁.myLoad.sub ((Frac.ofNat (getInfo st₁.info j).size).div
    (Frac.ofNat st₁.info.length))).eqv st.myLoad
  rw [hsz, hlen, hload]
  exact Frac.add_sub_eqv st.myLoad _

/-- Witness for C9 at a concrete input: the fresh `Page<8,1>` occupied at
the hinted block 0 with 2 blocks. -/
theorem C9_load_monotonicity_witness :
    (page8.try_occupy_hint 1 2 ⟨0, some 8⟩ = some (0, occHintW.2)) ∧
    (occHintW.2.myLoad = page8.myLoad.add
        ((Frac.ofNat (size_in_blocks 1 page8.alignment 2)).div
          (Frac.ofNat page8.info.length)) ∧
      (occHintW.2.release ⟨0, some occHintW.2.info.length⟩).1 = true ∧
      ((occHintW.2.release ⟨0, some occHintW.2.info.length⟩).2.myLoad).eqv
        page8.myLoad) :=
  ⟨by decide,
    C9_load_monotonicity page8 1 2 0 ⟨0, some 8⟩ occHintW.2 (by decide)⟩

/-- **C7** (confirmed): on a non-empty, ascending page map (with positive
gauge denominators) whose keys equal the pages' loads, `Pool::occupy`
fails exactly when the first entry with key `> max_load - requested load`
is the first entry overall, and otherwise steps back one entry from
`upper_bound` — the entry with the largest key (= load) not exceeding
`max_load - requested load`, the tightest fit — and calls that page's
`try_occupy`, returning its result. -/
theorem C7_best_fit_selection (pool : Pool) (sz al count : Nat)
    (hsorted : keysSorted pool.myPages = true)
    (hdens : densPos pool.myPages)
    (_hkeys : ∀ e ∈ pool.myPages, e.1 = e.2.myLoad)
    (hne : pool.myPages ≠ []) :
    (upperBound (Page.max_load.sub (Page.load_of sz pool.pageSize count))
        pool.myPages = 0 → (pool.occupy sz al count).1 = none) ∧
    (∀ k, upperBound (Page.max_load.sub (Page.load_of sz pool.pageSize count))
        pool.myPages = k + 1 →
      ((pool.myPages.getD k default).1).le
        (Page.max_load.sub (Page.load_of sz pool.pageSize count)) ∧
      (∀ i, i < pool.myPages.length →
        ((pool.myPages.getD i default).1).le
          (Page.max_load.sub (Page.load_of sz pool.pageSize count)) →
        ((pool.myPages.getD i default).1).le
          ((pool.myPages.getD k default).1)) ∧
      (pool.occupy sz al count).1 =
        ((pool.myPages.getD k default).2.try_occupy sz al count).map
          (fun r => (k, r.1))) := by
  constructor
  · intro h0
    simp only [Pool.occupy]
    rw [if_neg hne, h0]
    simp
  · intro k hk
    have hxden : 0 ≤ (Page.max_load.sub
        (Page.load_of sz pool.pageSize count)).den := by
      simp [Page.max_load, Page.load_of, Frac.sub, Frac.div, Frac.mul,
        Frac.ofNat]
    have hklt : k < pool.myPages.length := by
      have := upperBound_le_length
        (Page.max_load.sub (Page.load_of sz pool.pageSize count)) pool.myPages
      omega
    have hsel : ((pool.myPages.getD k default).1).le
        (Page.max_load.sub (Page.load_of sz pool.pageSize count)) :=
      upperBound_lt_imp_le _ _ k (by omega)
    refine ⟨hsel, ?_, ?_⟩
    · intro i hi hle
      by_cases hik : i ≤ k
      · exact keysSorted_getD_mono pool.myPages hsorted hdens i k hik hklt
      · exfalso
        have hgt := upperBound_le_imp_gt _ _ hsorted hdens hxden i hi (by omega)
        simp only [Frac.le, Frac.lt] at hle hgt
        omega
    · simp only [Pool.occupy]
      rw [if_neg hne, hk]
      rw [if_neg (Nat.succ_ne_zero k)]
      rw [Nat.succ_sub_one]
      cases h : (pool.myPages.getD k default).2.try_occupy sz al count with
      | none => simp [h]
      | some r => simp [h]

/-- Witness for C7 at the spec's example: pages of loads 0.1, 0.4 and 0.8
in a `Pool<20,1>` and a request of load 0.15 (`sizeof = 3`, `count = 1`,
`_Size = 20`): `upper_bound(0.85)` is the end (position 3), the pool steps
back to the 0.8-loaded page (index 2, the tightest fit) and returns what
its `try_occupy` produced. -/
theorem C7_best_fit_selection_witness :
    (keysSorted poolC7.myPages = true ∧ poolC7.myPages ≠ [] ∧
      upperBound (Page.max_load.sub (Page.load_of 3 poolC7.pageSize 1))
        poolC7.myPages = 2 + 1) ∧
    ((poolC7.myPages.getD 2 default).1).le
      (Page.max_load.sub (Page.load_of 3 poolC7.pageSize 1)) ∧
    (poolC7.occupy 3 1 1).1 =
      ((poolC7.myPages.getD 2 default).2.try_occupy 3 1 1).map
        (fun r => (2, r.1)) :=
  ⟨⟨by decide, by decide, by decide⟩,
    ((C7_best_fit_selection poolC7 3 1 1 (by decide) (by decide)
      (by decide) (by decide)).2 2 (by decide)).1,
    ((C7_best_fit_selection poolC7 3 1 1 (by decide) (by decide)
      (by decide) (by decide)).2 2 (by decide)).2.2⟩

/-- **C10** (confirmed): the hint-taking `try_occupy` validates nothing
about the hinted run.  On the reachable `Page<8,1>` state with an occupied
2-block head at block 0, the structurally valid hint to block 0 points at
an *occupied* head; `try_occupy<char>(1, hint)` nevertheless overwrites it
as an occupied head of the required 1 block (writing a bogus free tail
head inside the occupied run), bumps the load gauge by 1/8 (from 2/8 to
3/8), and returns the non-null pointer to block 0. -/
theorem C10_hint_occupy_unchecked :
    page8.try_occupy 1 1 2 = some (0, occ2a.2) ∧
    (Hint.mk 0 (some 8)).is_valid_against occ2a.2.info.length = true ∧
    (getInfo occ2a.2.info 0).is_free = false ∧
    (getInfo occ2a.2.info 0).size = 2 ∧
    size_in_blocks 1 1 1 = 1 ∧
    occ2a.2.try_occupy_hint 1 1 ⟨0, some 8⟩ = some (0, occC10.2) ∧
    getInfo occC10.2.info 0 = ⟨none, -1⟩ ∧
    occ2a.2.myLoad.eqv ⟨2, 8⟩ ∧
    occC10.2.myLoad.eqv ⟨3, 8⟩ := by
  decide

end Seweex
